import Mathlib

/-!
Verification of the dual-secret file-encryption envelope protocol
(`src/utils/security.ts`, `src/modules/DecryptionStream.ts`,
`src/components/SteganographyForm.tsx` — the `CryptoForm` pipeline).

Bytes are modelled as `List Nat` (each element intended `< 256`; boundedness
is a hypothesis where it matters).  The WebCrypto primitives
(`crypto.subtle` PBKDF2 / HKDF / AES-GCM) are modelled by an abstract
`Provider` structure whose fields state the standard contracts of an
authenticated cipher; the platform codecs `btoa`/`atob` (base64),
`TextEncoder`/`TextDecoder` (UTF-8) and `JSON.stringify`/`JSON.parse`
(restricted to the value grammar actually exercised) are modelled by
concrete executable functions below.
-/

namespace Dyad

/-! ## Little-endian 32-bit framing (`DataView.setUint32` / `getUint32`) -/

/-- `DataView.setUint32(_, n, true)`: the four little-endian bytes of `n`
(wrapping modulo `2^32` exactly as the JS `DataView` does). -/
def le32 (n : Nat) : List Nat :=
  [n % 256, n / 256 % 256, n / 65536 % 256, n / 16777216 % 256]

/-- `DataView.getUint32(_, true)` over four bytes. -/
def readLe32 (bs : List Nat) : Nat :=
  match bs with
  | [a, b, c, d] => a + 256 * b + 65536 * c + 16777216 * d
  | _ => 0

theorem le32_length (n : Nat) : (le32 n).length = 4 := rfl

theorem readLe32_le32 (n : Nat) (h : n < 4294967296) : readLe32 (le32 n) = n := by
  simp only [le32, readLe32]
  omega

theorem le32_bytes (n : Nat) : ∀ x ∈ le32 n, x < 256 := by
  simp only [le32, List.mem_cons, List.not_mem_nil, or_false]
  rintro x (rfl | rfl | rfl | rfl) <;> omega

/-! ## Base64 (the platform `btoa` / `atob` used by `arrayBufferToBase64`
and `base64ToArrayBuffer`; whitespace tolerance of the WHATWG
"forgiving-base64" decoder is not modelled — no caller feeds it). -/

/-- Character `n` of the standard base64 alphabet, `n < 64`. -/
def b64Char (n : Nat) : Char :=
  if n < 26 then Char.ofNat (65 + n)
  else if n < 52 then Char.ofNat (97 + (n - 26))
  else if n < 62 then Char.ofNat (48 + (n - 52))
  else if n = 62 then '+'
  else '/'

/-- Value of a base64 alphabet character, `none` on anything else. -/
def b64Val (c : Char) : Option Nat :=
  if 'A' ≤ c ∧ c ≤ 'Z' then some (c.toNat - 65)
  else if 'a' ≤ c ∧ c ≤ 'z' then some (c.toNat - 97 + 26)
  else if '0' ≤ c ∧ c ≤ '9' then some (c.toNat - 48 + 52)
  else if c = '+' then some 62
  else if c = '/' then some 63
  else none

/-- Base64 encoding of a byte list (the composite behaviour of
`arrayBufferToBase64`: bytes → binary string → `btoa`). -/
def b64encode : List Nat → List Char
  | b0 :: b1 :: b2 :: rest =>
      b64Char (b0 / 4) :: b64Char (b0 % 4 * 16 + b1 / 16) ::
      b64Char (b1 % 16 * 4 + b2 / 64) :: b64Char (b2 % 64) :: b64encode rest
  | [b0, b1] =>
      [b64Char (b0 / 4), b64Char (b0 % 4 * 16 + b1 / 16), b64Char (b1 % 16 * 4), '=']
  | [b0] => [b64Char (b0 / 4), b64Char (b0 % 4 * 16), '=', '=']
  | [] => []

/-- Base64 decoding of a string (the composite behaviour of
`base64ToArrayBuffer`: `atob` → char codes); `none` models the
`InvalidCharacterError` thrown by `atob`. -/
def b64decode : List Char → Option (List Nat)
  | [] => some []
  | c1 :: c2 :: c3 :: c4 :: rest =>
      match b64Val c1, b64Val c2 with
      | some v1, some v2 =>
        if c3 = '=' then
          if c4 = '=' ∧ rest = [] then some [v1 * 4 + v2 / 16] else none
        else
          match b64Val c3 with
          | some v3 =>
            if c4 = '=' then
              if rest = [] then some [v1 * 4 + v2 / 16, v2 % 16 * 16 + v3 / 4] else none
            else
              match b64Val c4 with
              | some v4 =>
                match b64decode rest with
                | some bs => some ((v1 * 4 + v2 / 16) :: (v2 % 16 * 16 + v3 / 4) :: (v3 % 4 * 64 + v4) :: bs)
                | none => none
              | none => none
          | none => none
      | _, _ => none
  | [c1, c2] =>
      match b64Val c1, b64Val c2 with
      | some v1, some v2 => some [v1 * 4 + v2 / 16]
      | _, _ => none
  | [c1, c2, c3] =>
      match b64Val c1, b64Val c2, b64Val c3 with
      | some v1, some v2, some v3 => some [v1 * 4 + v2 / 16, v2 % 16 * 16 + v3 / 4]
      | _, _, _ => none
  | [_] => none

theorem b64Val_b64Char : ∀ n < 64, b64Val (b64Char n) = some n := by decide

theorem b64Char_ne_eq : ∀ n < 64, b64Char n ≠ '=' := by decide

theorem b64decode_b64encode (bs : List Nat) (h : ∀ x ∈ bs, x < 256) :
    b64decode (b64encode bs) = some bs := by
  induction bs using b64encode.induct with
  | case1 b0 b1 b2 rest ih =>
    have hb0 : b0 < 256 := h b0 (by simp)
    have hb1 : b1 < 256 := h b1 (by simp)
    have hb2 : b2 < 256 := h b2 (by simp)
    have hrest : ∀ x ∈ rest, x < 256 := fun x hx => h x (by simp [hx])
    have h1 : b0 / 4 < 64 := by omega
    have h2 : b0 % 4 * 16 + b1 / 16 < 64 := by omega
    have h3 : b1 % 16 * 4 + b2 / 64 < 64 := by omega
    have h4 : b2 % 64 < 64 := by omega
    simp only [b64encode, b64decode, b64Val_b64Char _ h1, b64Val_b64Char _ h2,
      b64Val_b64Char _ h3, b64Val_b64Char _ h4, b64Char_ne_eq _ h3,
      b64Char_ne_eq _ h4, if_false, ih hrest]
    have e0 : b0 / 4 * 4 + (b0 % 4 * 16 + b1 / 16) / 16 = b0 := by omega
    have e1 : (b0 % 4 * 16 + b1 / 16) % 16 * 16 + (b1 % 16 * 4 + b2 / 64) / 4 = b1 := by omega
    have e2 : (b1 % 16 * 4 + b2 / 64) % 4 * 64 + b2 % 64 = b2 := by omega
    rw [e0, e1, e2]
  | case2 b0 b1 =>
    have hb0 : b0 < 256 := h b0 (by simp)
    have hb1 : b1 < 256 := h b1 (by simp)
    have h1 : b0 / 4 < 64 := by omega
    have h2 : b0 % 4 * 16 + b1 / 16 < 64 := by omega
    have h3 : b1 % 16 * 4 < 64 := by omega
    simp only [b64encode, b64decode, b64Val_b64Char _ h1, b64Val_b64Char _ h2,
      b64Val_b64Char _ h3, b64Char_ne_eq _ h3, if_false, if_true, and_self, if_pos rfl]
    have e0 : b0 / 4 * 4 + (b0 % 4 * 16 + b1 / 16) / 16 = b0 := by omega
    have e1 : (b0 % 4 * 16 + b1 / 16) % 16 * 16 + b1 % 16 * 4 / 4 = b1 := by omega
    rw [e0, e1]
  | case3 b0 =>
    have hb0 : b0 < 256 := h b0 (by simp)
    have h1 : b0 / 4 < 64 := by omega
    have h2 : b0 % 4 * 16 < 64 := by omega
    simp only [b64encode, b64decode, b64Val_b64Char _ h1, b64Val_b64Char _ h2]
    have e0 : b0 / 4 * 4 + b0 % 4 = b0 := by omega
    simp [e0]
  | case4 => rfl

/-! ## UTF-8 (the platform `TextEncoder` / `TextDecoder`).  The decoder is
total, emitting U+FFFD on malformed input as the non-fatal `TextDecoder`
does, and the top-level entry strips a leading byte-order mark. -/

/-- UTF-8 encoding of one scalar value (`TextEncoder` on one character). -/
def utf8EncodeChar (c : Char) : List Nat :=
  if c.toNat < 128 then [c.toNat]
  else if c.toNat < 2048 then [192 + c.toNat / 64, 128 + c.toNat % 64]
  else if c.toNat < 65536 then
    [224 + c.toNat / 4096, 128 + c.toNat / 64 % 64, 128 + c.toNat % 64]
  else
    [240 + c.toNat / 262144, 128 + c.toNat / 4096 % 64, 128 + c.toNat / 64 % 64, 128 + c.toNat % 64]

/-- UTF-8 encoding of a character list (`TextEncoder().encode`). -/
def utf8Encode : List Char → List Nat
  | [] => []
  | c :: cs => utf8EncodeChar c ++ utf8Encode cs

/-- One step of UTF-8 decoding: the scalar decoded at the head byte and
the number of bytes consumed (1 on malformed input, which yields
U+FFFD). -/
def utf8Step (b0 : Nat) (rest : List Nat) : Char × Nat :=
  if b0 < 128 then (Char.ofNat b0, 1)
  else if 194 ≤ b0 ∧ b0 < 224 then
    match rest with
    | b1 :: _ =>
      if 128 ≤ b1 ∧ b1 < 192 then (Char.ofNat ((b0 - 192) * 64 + (b1 - 128)), 2)
      else (Char.ofNat 65533, 1)
    | [] => (Char.ofNat 65533, 1)
  else if 224 ≤ b0 ∧ b0 < 240 then
    match rest with
    | b1 :: b2 :: _ =>
      if (128 ≤ b1 ∧ b1 < 192) ∧ (128 ≤ b2 ∧ b2 < 192) ∧
          2048 ≤ (b0 - 224) * 4096 + (b1 - 128) * 64 + (b2 - 128) ∧
          ((b0 - 224) * 4096 + (b1 - 128) * 64 + (b2 - 128) < 55296 ∨
            57344 ≤ (b0 - 224) * 4096 + (b1 - 128) * 64 + (b2 - 128)) then
        (Char.ofNat ((b0 - 224) * 4096 + (b1 - 128) * 64 + (b2 - 128)), 3)
      else (Char.ofNat 65533, 1)
    | _ => (Char.ofNat 65533, 1)
  else if 240 ≤ b0 ∧ b0 < 245 then
    match rest with
    | b1 :: b2 :: b3 :: _ =>
      if (128 ≤ b1 ∧ b1 < 192) ∧ (128 ≤ b2 ∧ b2 < 192) ∧ (128 ≤ b3 ∧ b3 < 192) ∧
          65536 ≤ (b0 - 240) * 262144 + (b1 - 128) * 4096 + (b2 - 128) * 64 + (b3 - 128) ∧
          (b0 - 240) * 262144 + (b1 - 128) * 4096 + (b2 - 128) * 64 + (b3 - 128) < 1114112 then
        (Char.ofNat ((b0 - 240) * 262144 + (b1 - 128) * 4096 + (b2 - 128) * 64 + (b3 - 128)), 4)
      else (Char.ofNat 65533, 1)
    | _ => (Char.ofNat 65533, 1)
  else (Char.ofNat 65533, 1)

/-- Fuelled UTF-8 decoding driver; the fuel falls by one per decoded
character, so any fuel at least the byte count is enough. -/
def utf8DecodeF : Nat → List Nat → List Char
  | 0, _ => []
  | _ + 1, [] => []
  | fuel + 1, b0 :: rest =>
    (utf8Step b0 rest).1 :: utf8DecodeF fuel (rest.drop ((utf8Step b0 rest).2 - 1))

/-- UTF-8 decoding (`TextDecoder().decode`, non-fatal): well-formed
sequences decode to their scalar value; overlong forms, surrogates,
out-of-range values and stray bytes yield U+FFFD. -/
def utf8Decode (bs : List Nat) : List Char := utf8DecodeF bs.length bs

/-- Top-level `TextDecoder().decode`: strips a UTF-8 byte-order mark. -/
def utf8DecodeBOM (bs : List Nat) : List Char :=
  if bs.take 3 = [239, 187, 191] then utf8Decode (bs.drop 3) else utf8Decode bs

theorem char_valid_nat (c : Char) :
    c.toNat < 55296 ∨ (57343 < c.toNat ∧ c.toNat < 1114112) := c.valid

theorem utf8EncodeChar_bytes (c : Char) : ∀ x ∈ utf8EncodeChar c, x < 256 := by
  have h := char_valid_nat c
  unfold utf8EncodeChar
  split
  · simp only [List.mem_cons, List.not_mem_nil, or_false]
    rintro x rfl
    omega
  split
  · simp only [List.mem_cons, List.not_mem_nil, or_false]
    rintro x (rfl | rfl) <;> omega
  split
  · simp only [List.mem_cons, List.not_mem_nil, or_false]
    rintro x (rfl | rfl | rfl) <;> omega
  · simp only [List.mem_cons, List.not_mem_nil, or_false]
    rintro x (rfl | rfl | rfl | rfl) <;> omega

theorem utf8Encode_bytes (cs : List Char) : ∀ x ∈ utf8Encode cs, x < 256 := by
  induction cs with
  | nil => simp [utf8Encode]
  | cons c cs ih =>
    intro x hx
    rcases List.mem_append.1 (by simpa [utf8Encode] using hx) with h | h
    · exact utf8EncodeChar_bytes c x h
    · exact ih x h

theorem utf8DecodeF_encodeChar (c : Char) (tail : List Nat) (f : Nat) :
    utf8DecodeF (f + 1) (utf8EncodeChar c ++ tail) = c :: utf8DecodeF f tail := by
  have hv := char_valid_nat c
  by_cases h1 : c.toNat < 128
  · simp only [utf8EncodeChar, if_pos h1, List.cons_append, List.nil_append, utf8DecodeF]
    have hs : utf8Step c.toNat tail = (Char.ofNat c.toNat, 1) := by
      simp only [utf8Step, if_pos h1]
    simp [hs, Char.ofNat_toNat]
  · by_cases h2 : c.toNat < 2048
    · have e : (192 + c.toNat / 64 - 192) * 64 + (128 + c.toNat % 64 - 128) = c.toNat := by
        omega
      simp only [utf8EncodeChar, if_neg h1, if_pos h2, List.cons_append, List.nil_append,
        utf8DecodeF]
      have hs : utf8Step (192 + c.toNat / 64) ((128 + c.toNat % 64) :: tail) = (c, 2) := by
        simp only [utf8Step]
        rw [if_neg (by omega), if_pos (by omega), if_pos (by omega), e, Char.ofNat_toNat]
      simp [hs]
    · by_cases h3 : c.toNat < 65536
      · have e : (224 + c.toNat / 4096 - 224) * 4096 + (128 + c.toNat / 64 % 64 - 128) * 64 +
            (128 + c.toNat % 64 - 128) = c.toNat := by omega
        simp only [utf8EncodeChar, if_neg h1, if_neg h2, if_pos h3, List.cons_append,
          List.nil_append, utf8DecodeF]
        have hs : utf8Step (224 + c.toNat / 4096)
            ((128 + c.toNat / 64 % 64) :: (128 + c.toNat % 64) :: tail) = (c, 3) := by
          simp only [utf8Step]
          rw [if_neg (by omega), if_neg (by omega), if_pos (by omega),
            if_pos (by refine ⟨⟨by omega, by omega⟩, ⟨by omega, by omega⟩, by omega, by omega⟩),
            e, Char.ofNat_toNat]
        simp [hs]
      · have e : (240 + c.toNat / 262144 - 240) * 262144 +
            (128 + c.toNat / 4096 % 64 - 128) * 4096 +
            (128 + c.toNat / 64 % 64 - 128) * 64 + (128 + c.toNat % 64 - 128) = c.toNat := by
          omega
        simp only [utf8EncodeChar, if_neg h1, if_neg h2, if_neg h3, List.cons_append,
          List.nil_append, utf8DecodeF]
        have hs : utf8Step (240 + c.toNat / 262144) ((128 + c.toNat / 4096 % 64) ::
            (128 + c.toNat / 64 % 64) :: (128 + c.toNat % 64) :: tail) = (c, 4) := by
          simp only [utf8Step]
          rw [if_neg (by omega), if_neg (by omega), if_neg (by omega), if_pos (by omega),
            if_pos (by refine ⟨⟨by omega, by omega⟩, ⟨by omega, by omega⟩,
              ⟨by omega, by omega⟩, by omega, by omega⟩), e, Char.ofNat_toNat]
        simp [hs]

theorem utf8EncodeChar_length_pos (c : Char) : 1 ≤ (utf8EncodeChar c).length := by
  unfold utf8EncodeChar
  split
  · simp
  split
  · simp
  split
  · simp
  · simp

theorem utf8DecodeF_encode (cs : List Char) :
    ∀ fuel : Nat, (utf8Encode cs).length ≤ fuel → utf8DecodeF fuel (utf8Encode cs) = cs := by
  induction cs with
  | nil =>
    intro fuel _
    cases fuel <;> rfl
  | cons c cs ih =>
    intro fuel hf
    have hpos := utf8EncodeChar_length_pos c
    rw [utf8Encode] at hf ⊢
    rw [List.length_append] at hf
    obtain ⟨f, rfl⟩ : ∃ f, fuel = f + 1 := ⟨fuel - 1, by omega⟩
    rw [utf8DecodeF_encodeChar, ih f (by omega)]

theorem utf8Decode_utf8Encode (cs : List Char) : utf8Decode (utf8Encode cs) = cs :=
  utf8DecodeF_encode cs (utf8Encode cs).length le_rfl

/-! ## JSON (`JSON.stringify` on the flat string-field metadata object,
and `JSON.parse` on the full value grammar; `\uXXXX` escapes that denote
lone surrogates decode to U+FFFD since Lean strings carry scalar values). -/

/-- JSON values as produced by `JSON.parse` (numbers kept as lexemes —
the protocol never writes or reads numeric fields). -/
inductive JVal where
  | jstr : String → JVal
  | jnum : String → JVal
  | jtrue : JVal
  | jfalse : JVal
  | jnull : JVal
  | jarr : List JVal → JVal
  | jobj : List (String × JVal) → JVal

/-- Lower-case hex digit, as `JSON.stringify` emits in `\u00xx` escapes. -/
def hexDigit (n : Nat) : Char :=
  if n < 10 then Char.ofNat (48 + n) else Char.ofNat (87 + n)

/-- The `JSON.stringify` escape of one character inside a string literal. -/
def escChar (c : Char) : List Char :=
  if c = '"' then ['\\', '"']
  else if c = '\\' then ['\\', '\\']
  else if c.toNat = 8 then ['\\', 'b']
  else if c.toNat = 9 then ['\\', 't']
  else if c.toNat = 10 then ['\\', 'n']
  else if c.toNat = 12 then ['\\', 'f']
  else if c.toNat = 13 then ['\\', 'r']
  else if c.toNat < 32 then ['\\', 'u', '0', '0', hexDigit (c.toNat / 16), hexDigit (c.toNat % 16)]
  else [c]

def escList : List Char → List Char
  | [] => []
  | c :: cs => escChar c ++ escList cs

/-- A printed JSON string literal, quotes included. -/
def printStr (s : String) : List Char := '"' :: escList s.data ++ ['"']

/-- The members of a flat string-valued object, comma-separated, no
whitespace — exactly `JSON.stringify`'s layout. -/
def printMembers : List (String × String) → List Char
  | [] => []
  | [(k, v)] => printStr k ++ ':' :: printStr v
  | (k, v) :: rest => printStr k ++ ':' :: printStr v ++ ',' :: printMembers rest

/-- `JSON.stringify` of an object whose fields are all strings, in
insertion order. -/
def printObj (kvs : List (String × String)) : String :=
  String.mk ('{' :: printMembers kvs ++ ['}'])

/-- JSON insignificant whitespace. -/
def isJsonWs (c : Char) : Bool := c = ' ' ∨ c = '\t' ∨ c = '\n' ∨ c = '\r'

def skipWs : List Char → List Char
  | [] => []
  | c :: rest => if isJsonWs c then skipWs rest else c :: rest

def hexVal (c : Char) : Option Nat :=
  if '0' ≤ c ∧ c ≤ '9' then some (c.toNat - 48)
  else if 'a' ≤ c ∧ c ≤ 'f' then some (c.toNat - 87)
  else if 'A' ≤ c ∧ c ≤ 'F' then some (c.toNat - 55)
  else none

/-- Scalar value denoted by a `\uXXXX` escape (lone surrogates, which JS
strings can carry but Lean strings cannot, map to U+FFFD). -/
def uChar (n : Nat) : Char :=
  if 55296 ≤ n ∧ n < 57344 then Char.ofNat 65533 else Char.ofNat n

def unescChar (c : Char) : Option Char :=
  if c = '"' then some '"'
  else if c = '\\' then some '\\'
  else if c = '/' then some '/'
  else if c = 'b' then some (Char.ofNat 8)
  else if c = 'f' then some (Char.ofNat 12)
  else if c = 'n' then some (Char.ofNat 10)
  else if c = 'r' then some (Char.ofNat 13)
  else if c = 't' then some (Char.ofNat 9)
  else none

/-- Body of a JSON string literal after its opening quote: returns the
decoded characters and the input after the closing quote. -/
def parseStrAux : List Char → Option (List Char × List Char)
  | [] => none
  | c :: rest =>
    if c = '"' then some ([], rest)
    else if c = '\\' then
      match rest with
      | [] => none
      | e :: rest2 =>
        if e = 'u' then
          match rest2 with
          | h1 :: h2 :: h3 :: h4 :: rest3 =>
            match hexVal h1, hexVal h2, hexVal h3, hexVal h4, parseStrAux rest3 with
            | some a, some b, some c2, some d, some (s, r) =>
                some (uChar (((a * 16 + b) * 16 + c2) * 16 + d) :: s, r)
            | _, _, _, _, _ => none
          | _ => none
        else
          match unescChar e, parseStrAux rest2 with
          | some c2, some (s, r) => some (c2 :: s, r)
          | _, _ => none
    else if c.toNat < 32 then none
    else
      match parseStrAux rest with
      | some (s, r) => some (c :: s, r)
      | none => none

def spanDigits (l : List Char) : List Char × List Char := l.span Char.isDigit

def parseExpPart (acc : List Char) (l : List Char) : Option (List Char × List Char) :=
  match l with
  | c :: rest =>
    if c = 'e' ∨ c = 'E' then
      match rest with
      | s :: rest2 =>
        if s = '+' ∨ s = '-' then
          match spanDigits rest2 with
          | ([], _) => none
          | (ds, r) => some (acc ++ c :: s :: ds, r)
        else
          match spanDigits rest with
          | ([], _) => none
          | (ds, r) => some (acc ++ c :: ds, r)
      | [] => none
    else some (acc, l)
  | [] => some (acc, l)

def parseFracPart (acc : List Char) (l : List Char) : Option (List Char × List Char) :=
  match l with
  | c :: rest =>
    if c = '.' then
      match spanDigits rest with
      | ([], _) => none
      | (ds, r) => parseExpPart (acc ++ c :: ds) r
    else parseExpPart acc l
  | [] => parseExpPart acc l

/-- Lexeme of a JSON number (`-? int frac? exp?`). -/
def parseNumLex (l : List Char) : Option (List Char × List Char) :=
  match l with
  | [] => none
  | c :: rest =>
    if c = '-' then
      match rest with
      | [] => none
      | c2 :: rest2 =>
        if c2 = '0' then parseFracPart ['-', '0'] rest2
        else if c2.isDigit then
          match spanDigits (c2 :: rest2) with
          | (ds, r) => parseFracPart ('-' :: ds) r
        else none
    else if c = '0' then parseFracPart ['0'] rest
    else if c.isDigit then
      match spanDigits (c :: rest) with
      | (ds, r) => parseFracPart ds r
    else none

mutual

/-- One JSON value (fuel bounds nesting depth and member counts). -/
def parseVal : Nat → List Char → Option (JVal × List Char)
  | 0, _ => none
  | fuel + 1, l =>
    match skipWs l with
    | [] => none
    | c :: rest =>
      if c = '"' then
        match parseStrAux rest with
        | some (s, r) => some (.jstr (String.mk s), r)
        | none => none
      else if c = 't' then
        match rest with
        | 'r' :: 'u' :: 'e' :: r => some (.jtrue, r)
        | _ => none
      else if c = 'f' then
        match rest with
        | 'a' :: 'l' :: 's' :: 'e' :: r => some (.jfalse, r)
        | _ => none
      else if c = 'n' then
        match rest with
        | 'u' :: 'l' :: 'l' :: r => some (.jnull, r)
        | _ => none
      else if c = '[' then
        match skipWs rest with
        | ']' :: r => some (.jarr [], r)
        | l2 =>
          match parseElems fuel l2 with
          | some (vs, r) => some (.jarr vs, r)
          | none => none
      else if c = '{' then
        match skipWs rest with
        | '}' :: r => some (.jobj [], r)
        | l2 =>
          match parseMembers fuel l2 with
          | some (kvs, r) => some (.jobj kvs, r)
          | none => none
      else
        match parseNumLex (c :: rest) with
        | some (ds, r) => some (.jnum (String.mk ds), r)
        | none => none

/-- Non-empty bracket-terminated array elements. -/
def parseElems : Nat → List Char → Option (List JVal × List Char)
  | 0, _ => none
  | fuel + 1, l =>
    match parseVal fuel l with
    | some (v, r) =>
      match skipWs r with
      | ',' :: r2 =>
        match parseElems fuel r2 with
        | some (vs, r3) => some (v :: vs, r3)
        | none => none
      | ']' :: r2 => some ([v], r2)
      | _ => none
    | none => none

/-- Non-empty brace-terminated object members. -/
def parseMembers : Nat → List Char → Option (List (String × JVal) × List Char)
  | 0, _ => none
  | fuel + 1, l =>
    match skipWs l with
    | '"' :: rest =>
      match parseStrAux rest with
      | some (k, r) =>
        match skipWs r with
        | ':' :: r2 =>
          match parseVal fuel r2 with
          | some (v, r3) =>
            match skipWs r3 with
            | ',' :: r4 =>
              match parseMembers fuel r4 with
              | some (kvs, r5) => some ((String.mk k, v) :: kvs, r5)
              | none => none
            | '}' :: r4 => some ([(String.mk k, v)], r4)
            | _ => none
          | none => none
        | _ => none
      | none => none
    | _ => none

end

/-- `JSON.parse`: a single JSON value padded by whitespace. -/
def jsonParse (s : String) : Option JVal :=
  match parseVal (s.data.length + 16) s.data with
  | some (v, rest) => if skipWs rest = [] then some v else none
  | none => none

/-- JS property lookup on a parsed object: later duplicate keys win, as in
`JSON.parse`. -/
def jLookup (kvs : List (String × JVal)) (k : String) : Option JVal :=
  match kvs with
  | [] => none
  | (k1, v) :: rest =>
    match jLookup rest k with
    | some v2 => some v2
    | none => if k1 = k then some v else none

theorem string_mk_data (s : String) : String.mk s.data = s := rfl

theorem hexVal_hexDigit : ∀ n < 16, hexVal (hexDigit n) = some n := by decide

theorem skipWs_not_ws {c : Char} (h : isJsonWs c = false) (l : List Char) :
    skipWs (c :: l) = c :: l := by
  simp [skipWs, h]

theorem parseStrAux_escape (cs : List Char) (rest : List Char) :
    parseStrAux (escList cs ++ '"' :: rest) = some (cs, rest) := by
  induction cs with
  | nil =>
    rw [escList, List.nil_append, parseStrAux.eq_def]
    simp
  | cons c cs ih =>
    rw [escList, List.append_assoc]
    by_cases hq : c = '"'
    · subst hq
      rw [show escChar '"' = ['\\', '"'] by decide]
      simp only [List.cons_append, List.nil_append]
      rw [parseStrAux.eq_def]
      simp [unescChar, ih]
    · by_cases hb : c = '\\'
      · subst hb
        rw [show escChar '\\' = ['\\', '\\'] by decide]
        simp only [List.cons_append, List.nil_append]
        rw [parseStrAux.eq_def]
        simp [unescChar, ih]
      · by_cases h8 : c.toNat = 8
        · have hc : c = Char.ofNat 8 := by rw [← h8, Char.ofNat_toNat]
          subst hc
          rw [show escChar (Char.ofNat 8) = ['\\', 'b'] by decide]
          simp only [List.cons_append, List.nil_append]
          rw [parseStrAux.eq_def]
          simp [unescChar, ih]
        · by_cases h9 : c.toNat = 9
          · have hc : c = Char.ofNat 9 := by rw [← h9, Char.ofNat_toNat]
            subst hc
            rw [show escChar (Char.ofNat 9) = ['\\', 't'] by decide]
            simp only [List.cons_append, List.nil_append]
            rw [parseStrAux.eq_def]
            simp [unescChar, ih]
          · by_cases h10 : c.toNat = 10
            · have hc : c = Char.ofNat 10 := by rw [← h10, Char.ofNat_toNat]
              subst hc
              rw [show escChar (Char.ofNat 10) = ['\\', 'n'] by decide]
              simp only [List.cons_append, List.nil_append]
              rw [parseStrAux.eq_def]
              simp [unescChar, ih]
            · by_cases h12 : c.toNat = 12
              · have hc : c = Char.ofNat 12 := by rw [← h12, Char.ofNat_toNat]
                subst hc
                rw [show escChar (Char.ofNat 12) = ['\\', 'f'] by decide]
                simp only [List.cons_append, List.nil_append]
                rw [parseStrAux.eq_def]
                simp [unescChar, ih]
              · by_cases h13 : c.toNat = 13
                · have hc : c = Char.ofNat 13 := by rw [← h13, Char.ofNat_toNat]
                  subst hc
                  rw [show escChar (Char.ofNat 13) = ['\\', 'r'] by decide]
                  simp only [List.cons_append, List.nil_append]
                  rw [parseStrAux.eq_def]
                  simp [unescChar, ih]
                · by_cases h32 : c.toNat < 32
                  · have hesc : escChar c = ['\\', 'u', '0', '0', hexDigit (c.toNat / 16),
                        hexDigit (c.toNat % 16)] := by
                      simp only [escChar, if_neg hq, if_neg hb, if_neg h8, if_neg h9, if_neg h10,
                        if_neg h12, if_neg h13, if_pos h32]
                    rw [hesc]
                    simp only [List.cons_append, List.nil_append]
                    rw [parseStrAux.eq_def]
                    have h0 : hexVal '0' = some 0 := by decide
                    have hd1 := hexVal_hexDigit (c.toNat / 16) (by omega)
                    have hd2 := hexVal_hexDigit (c.toNat % 16) (by omega)
                    simp only [reduceIte, h0, hd1, hd2, ih]
                    rw [if_neg (show ¬('\\' = '"') by decide)]
                    have hvn : ((0 * 16 + 0) * 16 + c.toNat / 16) * 16 + c.toNat % 16 =
                        c.toNat := by omega
                    rw [hvn]
                    simp only [uChar]
                    rw [if_neg (show ¬(55296 ≤ c.toNat ∧ c.toNat < 57344) by omega),
                      Char.ofNat_toNat]
                  · have hesc : escChar c = [c] := by
                      simp only [escChar, if_neg hq, if_neg hb, if_neg h8, if_neg h9, if_neg h10,
                        if_neg h12, if_neg h13, if_neg h32]
                    rw [hesc, List.cons_append, List.nil_append, parseStrAux.eq_def]
                    simp only [if_neg hq, if_neg hb, if_neg h32, ih]

theorem parseVal_printStr (fuel : Nat) (v : String) (tail : List Char) :
    parseVal (fuel + 1) ('"' :: (escList v.data ++ '"' :: tail)) = some (.jstr v, tail) := by
  rw [parseVal.eq_2]
  rw [skipWs_not_ws (by decide)]
  simp only [reduceIte]
  rw [parseStrAux_escape]

theorem parseMembers_printMembers (kvs : List (String × String)) :
    ∀ (fuel : Nat) (tail : List Char), kvs ≠ [] → kvs.length < fuel →
    parseMembers fuel (printMembers kvs ++ '}' :: tail) =
      some (kvs.map (fun kv => (kv.1, JVal.jstr kv.2)), tail) := by
  induction kvs with
  | nil => intro fuel tail hne; exact absurd rfl hne
  | cons kv rest ih =>
    intro fuel tail _ hlen
    obtain ⟨k, v⟩ := kv
    obtain ⟨f, rfl⟩ : ∃ f, fuel = f + 1 := ⟨fuel - 1, by omega⟩
    have hf1 : 1 ≤ f := by simp at hlen; omega
    obtain ⟨g, rfl⟩ : ∃ g, f = g + 1 := ⟨f - 1, by omega⟩
    cases rest with
    | nil =>
      simp only [printMembers, printStr, List.cons_append, List.append_assoc, List.nil_append]
      rw [parseMembers.eq_2]
      rw [skipWs_not_ws (by decide)]
      simp only []
      rw [parseStrAux_escape]
      simp only []
      rw [skipWs_not_ws (by decide)]
      simp only []
      rw [parseVal_printStr]
      simp only []
      rw [skipWs_not_ws (by decide)]
      simp [string_mk_data]
    | cons kv2 rest2 =>
      simp only [printMembers, printStr, List.cons_append, List.append_assoc, List.nil_append]
      rw [parseMembers.eq_2]
      rw [skipWs_not_ws (by decide)]
      simp only []
      rw [parseStrAux_escape]
      simp only []
      rw [skipWs_not_ws (by decide)]
      simp only []
      rw [parseVal_printStr]
      simp only []
      rw [skipWs_not_ws (by decide)]
      simp only []
      rw [show (printMembers (kv2 :: rest2) ++ '}' :: tail) =
        (printMembers (kv2 :: rest2) ++ '}' :: tail) from rfl]
      rw [ih (g + 1) tail (by simp) (by simp at hlen ⊢; omega)]
      simp [string_mk_data]

theorem parseVal_printObj (kvs : List (String × String)) (fuel : Nat) (tail : List Char)
    (hne : kvs ≠ []) (hlen : kvs.length + 1 < fuel) :
    parseVal fuel ('{' :: (printMembers kvs ++ '}' :: tail)) =
      some (.jobj (kvs.map (fun kv => (kv.1, JVal.jstr kv.2))), tail) := by
  obtain ⟨f, rfl⟩ : ∃ f, fuel = f + 1 := ⟨fuel - 1, by omega⟩
  rw [parseVal.eq_2]
  rw [skipWs_not_ws (by decide)]
  simp only [reduceIte]
  cases kvs with
  | nil => exact absurd rfl hne
  | cons kv rest =>
    obtain ⟨k, v⟩ := kv
    have hl : ∃ l, printMembers ((k, v) :: rest) ++ '}' :: tail = '"' :: l := by
      cases rest with
      | nil =>
        exact ⟨escList k.data ++ '"' :: ':' :: '"' :: (escList v.data ++ '"' :: '}' :: tail),
          by simp [printMembers, printStr]⟩
      | cons kv2 rest2 =>
        exact ⟨escList k.data ++ '"' :: ':' :: '"' :: (escList v.data ++ '"' :: ',' ::
            (printMembers (kv2 :: rest2) ++ '}' :: tail)),
          by simp [printMembers, printStr]⟩
    obtain ⟨l, hl⟩ := hl
    rw [if_neg (show ¬('{' = '"') by decide), if_neg (show ¬('{' = 't') by decide),
      if_neg (show ¬('{' = 'f') by decide), if_neg (show ¬('{' = 'n') by decide),
      if_neg (show ¬('{' = '[') by decide)]
    rw [hl, skipWs_not_ws (by decide)]
    split
    · rename_i r heq
      simp at heq
    · rw [← hl]
      rw [parseMembers_printMembers ((k, v) :: rest) f tail (by simp)
        (by simp at hlen ⊢; omega)]

theorem printMembers_length (kvs : List (String × String)) :
    kvs.length ≤ (printMembers kvs).length := by
  induction kvs with
  | nil => simp [printMembers]
  | cons kv rest ih =>
    obtain ⟨k, v⟩ := kv
    cases rest with
    | nil => simp [printMembers, printStr]
    | cons kv2 rest2 =>
      simp only [printMembers, List.length_cons, List.length_append, printStr]
      simp at ih ⊢
      omega

theorem jsonParse_printObj (kvs : List (String × String)) (hne : kvs ≠ []) :
    jsonParse (printObj kvs) = some (.jobj (kvs.map (fun kv => (kv.1, JVal.jstr kv.2)))) := by
  have hlen := printMembers_length kvs
  rw [jsonParse]
  have hdata : (printObj kvs).data = '{' :: (printMembers kvs ++ ['}']) := rfl
  rw [hdata]
  rw [show ('{' :: (printMembers kvs ++ ['}'])) = ('{' :: (printMembers kvs ++ '}' :: [])) by rfl]
  rw [parseVal_printObj kvs _ [] hne (by simp [List.length_cons, List.length_append]; omega)]
  simp [skipWs]

/-! ## Error taxonomy (spec section 7).  The TS code throws `Error`s carrying
the message strings below; `kind` records the spec's classification of each
throw site.  Platform exceptions that no `try` block in the source
intercepts (`DataView` range reads, `atob` decoding, property reads on
`null`) are `unclassified`. -/

inductive ErrKind where
  | format
  | integrity
  | auth
  | unclassified
deriving DecidableEq, Repr

structure Err where
  kind : ErrKind
  msg : String
deriving DecidableEq, Repr

def errMagic : Err := ⟨.format, "Invalid file format: Magic header mismatch."⟩

def errJson : Err := ⟨.format, "Invalid file format: Metadata JSON parsing failed."⟩

def errSalt : Err := ⟨.integrity, "Metadata integrity check failed: Invalid salt length."⟩

def errWiv : Err := ⟨.integrity, "Metadata integrity check failed: Invalid wrapping IV length."⟩

def errAuth : Err := ⟨.auth, "Authentication failed: Invalid password or receiver email."⟩

def errShort : Err := ⟨.integrity, "Encrypted data too short."⟩

def errPayload : Err :=
  ⟨.integrity, "Integrity check failed: Data may be corrupted or key is incorrect."⟩

def errRange : Err := ⟨.unclassified, "RangeError: Offset is outside the bounds of the DataView"⟩

def errB64 : Err :=
  ⟨.unclassified, "InvalidCharacterError: The string to be decoded is not correctly encoded."⟩

def errNull : Err := ⟨.unclassified, "TypeError: Cannot read properties of null"⟩

def errKeyType : Err := ⟨.unclassified, "InvalidAccessError: key is not extractable"⟩

def errImportLen : Err := ⟨.unclassified, "DataError: invalid AES key length"⟩

/-! ## The WebCrypto provider (`crypto.subtle`). -/

/-- Abstract model of `crypto.subtle`.  `pbkdf2 hash iterations lenBits
secret salt` and `hkdf hash salt ikm info lenBits` are the two key
derivations; `gcmEnc key iv plaintext` is AES-GCM producing
ciphertext‖tag and `gcmDec` its inverse, `none` on tag failure.  The
contract fields are the standard properties of an authenticated cipher;
`gcm_inj` is the symbolic idealization that a ciphertext determines the
(12-byte) IV and the plaintext it encrypts. -/
structure Provider where
  pbkdf2 : String → Nat → Nat → String → List Nat → List Nat
  hkdf : String → List Nat → List Nat → List Nat → Nat → List Nat
  gcmEnc : List Nat → List Nat → List Nat → List Nat
  gcmDec : List Nat → List Nat → List Nat → Option (List Nat)
  gcm_enc_dec : ∀ k iv m, gcmDec k iv (gcmEnc k iv m) = some m
  gcm_len : ∀ k iv m, (gcmEnc k iv m).length = m.length + 16
  gcm_bytes : ∀ k iv m, (∀ x ∈ iv, x < 256) → (∀ x ∈ m, x < 256) →
    ∀ x ∈ gcmEnc k iv m, x < 256
  gcm_inj : ∀ k1 iv1 m1 k2 iv2 m2, iv1.length = 12 → iv2.length = 12 →
    gcmEnc k1 iv1 m1 = gcmEnc k2 iv2 m2 → iv1 = iv2 ∧ m1 = m2

/-- A `CryptoKey`: raw key material plus the `extractable` flag. -/
structure CKey where
  raw : List Nat
  extractable : Bool
deriving DecidableEq, Repr

/-- `crypto.subtle.exportKey('raw', k)`: rejects non-extractable keys. -/
def exportKey (k : CKey) : Except Err (List Nat) :=
  if k.extractable then .ok k.raw else .error errKeyType

/-! ## `security.ts` constants. -/

def PBKDF2_ITERATIONS : Nat := 600000

def PBKDF2_KEYLEN : Nat := 32

def AES_KEY_LENGTH : Nat := 256

def AES_IV_LENGTH : Nat := 12

def AES_TAG_LENGTH : Nat := 16

def SALT_LENGTH : Nat := 16

/-! ## Key derivation and key management
(`deriveKeyPBKDF2`, `generateDataEncryptionKey`, `deriveMasterKey`,
`wrapDataKey`, `unwrapDataKey`). -/

/-- `deriveKeyPBKDF2`: PBKDF2 with SHA-256, 600000 iterations, 256-bit
AES-GCM output, extractable (needed for the HKDF combination). -/
def deriveKeyPBKDF2 (P : Provider) (secret : String) (salt : List Nat) : CKey :=
  { raw := P.pbkdf2 "SHA-256" PBKDF2_ITERATIONS (PBKDF2_KEYLEN * 8) secret salt,
    extractable := true }

/-- `generateDataEncryptionKey`: a fresh random AES-256-GCM key (the random
draw is an explicit argument), extractable for wrapping. -/
def generateDataEncryptionKey (dekDraw : List Nat) : CKey :=
  { raw := dekDraw, extractable := true }

/-- The fixed HKDF context string of `deriveMasterKey`. -/
def HKDF_INFO : String := "Dyad File Encryption Master Key"

/-- `deriveMasterKey`: exports both stretched keys, concatenates kp‖ke as
input keying material, HKDF-SHA-256 with empty salt and the fixed context
string, 256-bit output, NOT extractable. -/
def deriveMasterKey (P : Provider) (kp ke : CKey) : Except Err CKey := do
  let kpRaw ← exportKey kp
  let keRaw ← exportKey ke
  .ok { raw := P.hkdf "SHA-256" [] (kpRaw ++ keRaw) (utf8Encode HKDF_INFO.data) AES_KEY_LENGTH,
        extractable := false }

/-- `wrapDataKey`: exports the DEK and AES-GCM-encrypts it under KM with a
fresh 12-byte wrapping IV (the random draw is an explicit argument);
returns (wrappedKey, iv). -/
def wrapDataKey (P : Provider) (wivDraw : List Nat) (dek km : CKey) :
    Except Err (List Nat × List Nat) := do
  let dekRaw ← exportKey dek
  .ok (P.gcmEnc km.raw wivDraw dekRaw, wivDraw)

/-- `crypto.subtle.importKey('raw', …, 'AES-GCM', true, …)`: AES key
material must be 16, 24 or 32 bytes. -/
def importAesKey (raw : List Nat) : Except Err CKey :=
  if raw.length = 16 ∨ raw.length = 24 ∨ raw.length = 32 then .ok ⟨raw, true⟩
  else .error errImportLen

/-- `unwrapDataKey`: AES-GCM-decrypts the wrapped DEK under KM and
re-imports it; ANY failure inside the `try` block — tag failure or import
failure — is replaced by the single authentication error. -/
def unwrapDataKey (P : Provider) (wrappedKey iv : List Nat) (km : CKey) : Except Err CKey :=
  match P.gcmDec km.raw iv wrappedKey with
  | none => .error errAuth
  | some dekRaw =>
    match importAesKey dekRaw with
    | .ok dek => .ok dek
    | .error _ => .error errAuth

/-! ## Metadata codec (`packageMetadata`, `parseMetadata`). -/

def MAGIC_HEADER : List Nat := [68, 89, 65, 68]

/-- The metadata JSON `packageMetadata` builds:
`JSON.stringify({fileName, sp, se, wiv, wdek})` with the four binary
fields base64-encoded. -/
def metadataJson (fileName : String) (sp se wiv wdek : List Nat) : String :=
  printObj [("fileName", fileName), ("sp", String.mk (b64encode sp)),
    ("se", String.mk (b64encode se)), ("wiv", String.mk (b64encode wiv)),
    ("wdek", String.mk (b64encode wdek))]

/-- The UTF-8 bytes of the metadata JSON (`metadataBuffer` in the source). -/
def metadataBytes (fileName : String) (sp se wiv wdek : List Nat) : List Nat :=
  utf8Encode (metadataJson fileName sp se wiv wdek).data

/-- `packageMetadata`: MAGIC(4) ‖ metadata byte length (uint32 LE, wrapping
as `setUint32` does) ‖ UTF-8 JSON. -/
def packageMetadata (fileName : String) (sp se wiv wdek : List Nat) : List Nat :=
  MAGIC_HEADER ++ le32 (metadataBytes fileName sp se wiv wdek).length ++
    metadataBytes fileName sp se wiv wdek

structure ParsedMetadata where
  fileName : String
  sp : List Nat
  se : List Nat
  wiv : List Nat
  wdek : List Nat
  headerLength : Nat
deriving DecidableEq, Repr

/-- JS `String(…)` coercion of a property read from the parsed JSON: the
code passes `metadata.sp` etc. straight to `atob`, which stringifies its
argument; a missing property is `undefined`.  (Array coercion is
approximated; the protocol's own envelopes only ever store strings.) -/
def jsCoerceString : Option JVal → String
  | none => "undefined"
  | some (.jstr s) => s
  | some (.jnum s) => s
  | some .jtrue => "true"
  | some .jfalse => "false"
  | some .jnull => "null"
  | some (.jarr _) => ""
  | some (.jobj _) => "[object Object]"

/-- Property access `metadata.k` on a `JSON.parse` result: reading a
property of `null` throws a `TypeError`; any non-object value yields
`undefined`. -/
def jsGetProp (j : JVal) (k : String) : Except Err (Option JVal) :=
  match j with
  | .jnull => .error errNull
  | .jobj kvs => .ok (jLookup kvs k)
  | _ => .ok none

/-- `base64ToArrayBuffer`: `atob` then char codes; the
`InvalidCharacterError` of `atob` is NOT caught anywhere in the source. -/
def base64ToBytes (s : String) : Except Err (List Nat) :=
  match b64decode s.data with
  | some bs => .ok bs
  | none => .error errB64

/-- `parseMetadata`: verifies the 4-byte magic, reads the uint32 LE
metadata length (a file of 4–7 bytes that passes the magic check makes
`getUint32(4)` throw an uncaught `RangeError`), UTF-8-decodes and
`JSON.parse`s exactly `metadataLength` bytes, base64-decodes the four
fields in object-literal order, then checks salt and wrapping-IV
lengths. -/
def parseMetadata (file : List Nat) : Except Err ParsedMetadata :=
  if file.take 4 ≠ MAGIC_HEADER then .error errMagic
  else if (file.take 8).length < 8 then .error errRange
  else
    let metadataLength := readLe32 ((file.take 8).drop 4)
    let headerLength := 8 + metadataLength
    let metadataJsonStr := String.mk (utf8DecodeBOM ((file.drop 8).take metadataLength))
    match jsonParse metadataJsonStr with
    | none => .error errJson
    | some j => do
      let fileNameV ← jsGetProp j "fileName"
      let spV ← jsGetProp j "sp"
      let sp ← base64ToBytes (jsCoerceString spV)
      let seV ← jsGetProp j "se"
      let se ← base64ToBytes (jsCoerceString seV)
      let wivV ← jsGetProp j "wiv"
      let wiv ← base64ToBytes (jsCoerceString wivV)
      let wdekV ← jsGetProp j "wdek"
      let wdek ← base64ToBytes (jsCoerceString wdekV)
      if sp.length ≠ SALT_LENGTH ∨ se.length ≠ SALT_LENGTH then .error errSalt
      else if wiv.length ≠ AES_IV_LENGTH then .error errWiv
      else .ok ⟨jsCoerceString fileNameV, sp, se, wiv, wdek, headerLength⟩

/-! ## Payload cipher (`encryptFileStream`, `decryptFileStream`). -/

/-- `encryptFileStream`: fresh 12-byte payload IV (explicit argument), one
AES-GCM call over the whole file, output IV ‖ ciphertext ‖ tag. -/
def encryptFileStream (P : Provider) (pivDraw : List Nat) (fileBytes : List Nat)
    (dek : CKey) : List Nat :=
  pivDraw ++ P.gcmEnc dek.raw pivDraw fileBytes

/-- `decryptFileStream`: rejects payloads shorter than IV+tag before any
decryption, splits the first 12 bytes as IV, AES-GCM-decrypts the
remainder; tag failure is the integrity error. -/
def decryptFileStream (P : Provider) (encrypted : List Nat) (dek : CKey) :
    Except Err (List Nat) :=
  if encrypted.length < AES_IV_LENGTH + AES_TAG_LENGTH then .error errShort
  else
    match P.gcmDec dek.raw (encrypted.take AES_IV_LENGTH) (encrypted.drop AES_IV_LENGTH) with
    | some m => .ok m
    | none => .error errPayload

/-! ## Envelope orchestrator (`CryptoForm.handleEncrypt` /
`CryptoForm.handleDecrypt`, the cryptographic pipelines of their `try`
blocks; the UI password-length guard appears as a hypothesis of the
round-trip theorems). -/

/-- The random draws one `handleEncrypt` run makes: password salt and
email salt (`generateSalt`, 16 bytes), wrapping IV (`wrapDataKey`),
payload IV (`encryptFileStream`), and raw DEK bytes (`generateKey`). -/
structure Rand where
  sp : List Nat
  se : List Nat
  wiv : List Nat
  piv : List Nat
  dekRaw : List Nat
deriving DecidableEq, Repr

/-- The draws have the sizes the source requests, and are bytes. -/
def RandWF (r : Rand) : Prop :=
  r.sp.length = 16 ∧ (∀ x ∈ r.sp, x < 256) ∧
  r.se.length = 16 ∧ (∀ x ∈ r.se, x < 256) ∧
  r.wiv.length = 12 ∧ (∀ x ∈ r.wiv, x < 256) ∧
  r.piv.length = 12 ∧ (∀ x ∈ r.piv, x < 256) ∧
  r.dekRaw.length = 32 ∧ (∀ x ∈ r.dekRaw, x < 256)

instance (r : Rand) : Decidable (RandWF r) := by unfold RandWF; infer_instance

/-- `handleEncrypt` steps 1–8: salts, PBKDF2 both secrets, HKDF master
key, fresh DEK, wrap, encrypt payload, package header, header ‖ payload. -/
def encryptFile (P : Provider) (r : Rand) (fileBytes : List Nat) (fileName : String)
    (password receiverEmail : String) : Except Err (List Nat) := do
  let kp := deriveKeyPBKDF2 P password r.sp
  let ke := deriveKeyPBKDF2 P receiverEmail r.se
  let km ← deriveMasterKey P kp ke
  let dek := generateDataEncryptionKey r.dekRaw
  let wrapped ← wrapDataKey P r.wiv dek km
  let encryptedContent := encryptFileStream P r.piv fileBytes dek
  let header := packageMetadata fileName r.sp r.se wrapped.2 wrapped.1
  .ok (header ++ encryptedContent)

/-- `handleDecrypt` steps 1–5: parse header, PBKDF2 both secrets with the
stored salts, HKDF master key, unwrap DEK (the sole authentication gate),
decrypt payload. -/
def decryptFile (P : Provider) (envelope : List Nat) (password receiverEmail : String) :
    Except Err (List Nat) := do
  let meta ← parseMetadata envelope
  let encryptedContent := envelope.drop meta.headerLength
  let kp := deriveKeyPBKDF2 P password meta.sp
  let ke := deriveKeyPBKDF2 P receiverEmail meta.se
  let km ← deriveMasterKey P kp ke
  let dek ← unwrapDataKey P meta.wdek meta.wiv km
  decryptFileStream P encryptedContent dek

/-! ## Shorthands naming the intermediate values of one encryption run. -/

/-- Raw stretched key of one secret (`deriveKeyPBKDF2`'s key material). -/
def stretchedOf (P : Provider) (secret : String) (salt : List Nat) : List Nat :=
  (deriveKeyPBKDF2 P secret salt).raw

/-- Raw master key for secrets (pw, em) under salts (sp, se). -/
def masterRawOf (P : Provider) (sp se : List Nat) (pw em : String) : List Nat :=
  P.hkdf "SHA-256" [] (stretchedOf P pw sp ++ stretchedOf P em se)
    (utf8Encode HKDF_INFO.data) AES_KEY_LENGTH

/-- The wrapped DEK one run produces. -/
def wrappedOf (P : Provider) (r : Rand) (pw em : String) : List Nat :=
  P.gcmEnc (masterRawOf P r.sp r.se pw em) r.wiv r.dekRaw

/-- The envelope one run produces. -/
def envelopeOf (P : Provider) (r : Rand) (fileBytes : List Nat) (fileName pw em : String) :
    List Nat :=
  packageMetadata fileName r.sp r.se r.wiv (wrappedOf P r pw em) ++
    (r.piv ++ P.gcmEnc r.dekRaw r.piv fileBytes)

theorem encryptFile_eq (P : Provider) (r : Rand) (fileBytes : List Nat)
    (fileName pw em : String) :
    encryptFile P r fileBytes fileName pw em =
      .ok (envelopeOf P r fileBytes fileName pw em) := rfl

/-! ## Pack/parse round-trip. -/

theorem metadataJson_data (fn : String) (sp se wiv wdek : List Nat) :
    (metadataJson fn sp se wiv wdek).data =
      '{' :: (printMembers [("fileName", fn), ("sp", String.mk (b64encode sp)),
        ("se", String.mk (b64encode se)), ("wiv", String.mk (b64encode wiv)),
        ("wdek", String.mk (b64encode wdek))] ++ ['}']) := rfl

theorem metadataBytes_head (fn : String) (sp se wiv wdek : List Nat) :
    ∃ t, metadataBytes fn sp se wiv wdek = 123 :: t := by
  rw [metadataBytes, metadataJson_data, utf8Encode]
  exact ⟨_, rfl⟩

theorem parseMetadata_packageMetadata (fn : String) (sp se wiv wdek payload : List Nat)
    (hsp : sp.length = 16) (hspB : ∀ x ∈ sp, x < 256)
    (hse : se.length = 16) (hseB : ∀ x ∈ se, x < 256)
    (hwiv : wiv.length = 12) (hwivB : ∀ x ∈ wiv, x < 256)
    (hwdekB : ∀ x ∈ wdek, x < 256)
    (hlen : (metadataBytes fn sp se wiv wdek).length < 4294967296) :
    parseMetadata (packageMetadata fn sp se wiv wdek ++ payload) =
      .ok ⟨fn, sp, se, wiv, wdek, 8 + (metadataBytes fn sp se wiv wdek).length⟩ := by
  set B := metadataBytes fn sp se wiv wdek with hB
  set n := B.length with hn
  have hE : packageMetadata fn sp se wiv wdek ++ payload =
      (MAGIC_HEADER ++ le32 n) ++ (B ++ payload) := by
    simp [packageMetadata, List.append_assoc]
  have h8 : (MAGIC_HEADER ++ le32 n).length = 8 := by simp [MAGIC_HEADER, le32]
  have e1 : ((MAGIC_HEADER ++ le32 n) ++ (B ++ payload)).take 4 = MAGIC_HEADER := by
    rw [List.append_assoc]
    exact List.take_left' rfl
  have e2 : ((MAGIC_HEADER ++ le32 n) ++ (B ++ payload)).take 8 = MAGIC_HEADER ++ le32 n :=
    List.take_left' h8
  have e4 : ((MAGIC_HEADER ++ le32 n) ++ (B ++ payload)).drop 8 = B ++ payload :=
    List.drop_left' h8
  have e3 : (MAGIC_HEADER ++ le32 n).drop 4 = le32 n := List.drop_left' rfl
  have e5 : (B ++ payload).take n = B := List.take_left' hn.symm
  have e6 : utf8DecodeBOM B = (metadataJson fn sp se wiv wdek).data := by
    obtain ⟨t, ht⟩ := metadataBytes_head fn sp se wiv wdek
    rw [utf8DecodeBOM, if_neg (by rw [← hB] at ht; rw [ht]; simp)]
    rw [hB, metadataBytes, utf8Decode_utf8Encode]
  have e8 : jsonParse (metadataJson fn sp se wiv wdek) =
      some (.jobj [("fileName", .jstr fn), ("sp", .jstr (String.mk (b64encode sp))),
        ("se", .jstr (String.mk (b64encode se))), ("wiv", .jstr (String.mk (b64encode wiv))),
        ("wdek", .jstr (String.mk (b64encode wdek)))]) := by
    rw [metadataJson, jsonParse_printObj _ (by simp)]
    simp
  rw [hE, parseMetadata]
  rw [e1]
  simp only [ne_eq, not_true_eq_false, if_false, reduceIte]
  rw [e2, e4]
  simp only [h8]
  rw [if_neg (by omega)]
  rw [e3, readLe32_le32 n (by rw [hn, hB] at hlen ⊢; exact hlen)]
  rw [e5, e6, string_mk_data, e8]
  simp only [jsGetProp, jLookup, jsCoerceString, base64ToBytes, string_mk_data]
  simp only [String.reduceEq, reduceIte]
  simp only [Bind.bind, Except.bind, jsCoerceString, string_mk_data]
  rw [b64decode_b64encode sp hspB, b64decode_b64encode se hseB, b64decode_b64encode wiv hwivB,
    b64decode_b64encode wdek hwdekB]
  dsimp only
  rw [if_neg (by simp [SALT_LENGTH, hsp, hse]), if_neg (by simp [AES_IV_LENGTH, hwiv])]

theorem packageMetadata_length (fn : String) (sp se wiv wdek : List Nat) :
    (packageMetadata fn sp se wiv wdek).length =
      8 + (metadataBytes fn sp se wiv wdek).length := by
  simp [packageMetadata, MAGIC_HEADER, le32]
  omega

/-! ## Full decrypt-of-encrypt round-trip (shared by several claims). -/

theorem decryptFile_envelopeOf (P : Provider) (r : Rand) (F : List Nat) (fn pw em : String)
    (hwf : RandWF r)
    (hlen : (metadataBytes fn r.sp r.se r.wiv (wrappedOf P r pw em)).length < 4294967296) :
    decryptFile P (envelopeOf P r F fn pw em) pw em = .ok F := by
  obtain ⟨hsp, hspB, hse, hseB, hwiv, hwivB, hpiv, hpivB, hdek, hdekB⟩ := hwf
  have hwdekB : ∀ x ∈ wrappedOf P r pw em, x < 256 := P.gcm_bytes _ _ _ hwivB hdekB
  have hparse := parseMetadata_packageMetadata fn r.sp r.se r.wiv (wrappedOf P r pw em)
    (r.piv ++ P.gcmEnc r.dekRaw r.piv F) hsp hspB hse hseB hwiv hwivB hwdekB hlen
  have hdrop : (packageMetadata fn r.sp r.se r.wiv (wrappedOf P r pw em) ++
      (r.piv ++ P.gcmEnc r.dekRaw r.piv F)).drop
        (8 + (metadataBytes fn r.sp r.se r.wiv (wrappedOf P r pw em)).length) =
      r.piv ++ P.gcmEnc r.dekRaw r.piv F :=
    List.drop_left' (packageMetadata_length fn r.sp r.se r.wiv (wrappedOf P r pw em))
  rw [decryptFile]
  simp only [envelopeOf]
  rw [hparse]
  simp only [Bind.bind, Except.bind]
  rw [hdrop]
  simp only [deriveKeyPBKDF2, deriveMasterKey, exportKey, generateDataEncryptionKey,
    eq_self_iff_true, if_true, Bind.bind, Except.bind]
  simp only [unwrapDataKey]
  have hkm : P.gcmDec (P.hkdf "SHA-256" []
      ((P.pbkdf2 "SHA-256" PBKDF2_ITERATIONS (PBKDF2_KEYLEN * 8) pw r.sp) ++
        (P.pbkdf2 "SHA-256" PBKDF2_ITERATIONS (PBKDF2_KEYLEN * 8) em r.se))
      (utf8Encode HKDF_INFO.data) AES_KEY_LENGTH) r.wiv (wrappedOf P r pw em) =
      some r.dekRaw := by
    rw [wrappedOf, masterRawOf, stretchedOf, deriveKeyPBKDF2]
    exact P.gcm_enc_dec _ _ _
  rw [hkm]
  simp only [importAesKey]
  rw [if_pos (Or.inr (Or.inr hdek))]
  simp only [decryptFileStream]
  rw [if_neg (by simp only [List.length_append, hpiv, P.gcm_len, AES_IV_LENGTH,
    AES_TAG_LENGTH]; omega)]
  rw [show (r.piv ++ P.gcmEnc r.dekRaw r.piv F).take AES_IV_LENGTH = r.piv from
    List.take_left' (by rw [hpiv]; rfl)]
  rw [show (r.piv ++ P.gcmEnc r.dekRaw r.piv F).drop AES_IV_LENGTH =
      P.gcmEnc r.dekRaw r.piv F from List.drop_left' (by rw [hpiv]; rfl)]
  rw [P.gcm_enc_dec]

/-! ## A concrete provider instance (used by the witness theorems); its
AES-GCM stand-in appends the IV and a 4-byte checksum, which makes the
`Provider` contract fields hold by construction. -/

def toyHash (l : List Nat) : Nat := (l.foldl (fun a b => a * 31 + b + 1) 7) % 256

def toyMac (k iv m : List Nat) : List Nat :=
  [toyHash k, toyHash iv, toyHash m, toyHash (k ++ iv ++ m)]

def toyIvPad (iv : List Nat) : List Nat :=
  if iv.length = 12 then iv else List.replicate 12 0

def toyEnc (k iv m : List Nat) : List Nat := m ++ (toyIvPad iv ++ toyMac k iv m)

def toyDec (k iv c : List Nat) : Option (List Nat) :=
  if 16 ≤ c.length ∧ c.drop (c.length - 16) = toyIvPad iv ++ toyMac k iv (c.take (c.length - 16))
  then some (c.take (c.length - 16)) else none

theorem toyIvPad_length (iv : List Nat) : (toyIvPad iv).length = 12 := by
  rw [toyIvPad]
  split <;> simp_all

theorem toySuffix_length (k iv m : List Nat) : (toyIvPad iv ++ toyMac k iv m).length = 16 := by
  simp [toyMac, toyIvPad_length]

theorem toyEnc_length (k iv m : List Nat) : (toyEnc k iv m).length = m.length + 16 := by
  rw [toyEnc, List.length_append, toySuffix_length]

theorem toyEnc_take (k iv m : List Nat) :
    (toyEnc k iv m).take ((toyEnc k iv m).length - 16) = m := by
  rw [toyEnc_length, Nat.add_sub_cancel, toyEnc]
  exact List.take_left' rfl

theorem toyEnc_drop (k iv m : List Nat) :
    (toyEnc k iv m).drop ((toyEnc k iv m).length - 16) = toyIvPad iv ++ toyMac k iv m := by
  rw [toyEnc_length, Nat.add_sub_cancel, toyEnc]
  exact List.drop_left' rfl

theorem toyDec_toyEnc (k iv m : List Nat) : toyDec k iv (toyEnc k iv m) = some m := by
  rw [toyDec, if_pos]
  · rw [toyEnc_take]
  · refine ⟨by rw [toyEnc_length]; omega, ?_⟩
    rw [toyEnc_drop, toyEnc_take]

def toyProvider : Provider where
  pbkdf2 := fun _ _ _ secret salt =>
    (utf8Encode secret.data).length :: (utf8Encode secret.data ++ salt)
  hkdf := fun _ salt ikm info _ => salt.length :: ikm.length :: (salt ++ (ikm ++ info))
  gcmEnc := toyEnc
  gcmDec := toyDec
  gcm_enc_dec := toyDec_toyEnc
  gcm_len := toyEnc_length
  gcm_bytes := by
    intro k iv m hiv hm x hx
    rw [toyEnc] at hx
    rcases List.mem_append.1 hx with h | h
    · exact hm x h
    rcases List.mem_append.1 h with h | h
    · rw [toyIvPad] at h
      split at h
      · exact hiv x h
      · rw [List.eq_of_mem_replicate h]
        omega
    · rw [toyMac] at h
      simp only [List.mem_cons, List.not_mem_nil, or_false] at h
      have hh : ∀ l : List Nat, toyHash l < 256 := fun l => Nat.mod_lt _ (by omega)
      rcases h with rfl | rfl | rfl | rfl <;> exact hh _
  gcm_inj := by
    intro k1 iv1 m1 k2 iv2 m2 hiv1 hiv2 heq
    have h1 := toyEnc_take k1 iv1 m1
    have h2 := toyEnc_take k2 iv2 m2
    rw [heq] at h1
    have hm : m1 = m2 := h1.symm.trans h2
    refine ⟨?_, hm⟩
    have hdrop1 := toyEnc_drop k1 iv1 m1
    have hdrop2 := toyEnc_drop k2 iv2 m2
    have hsuffix : toyIvPad iv1 ++ toyMac k1 iv1 m1 = toyIvPad iv2 ++ toyMac k2 iv2 m2 := by
      rw [← hdrop1, ← hdrop2, heq]
    have hpads := (List.append_inj hsuffix
      (by rw [toyIvPad_length, toyIvPad_length])).1
    rw [toyIvPad, if_pos hiv1, toyIvPad, if_pos hiv2] at hpads
    exact hpads

/-! ## Concrete data for the witness theorems. -/

def r0 : Rand :=
  { sp := [0, 1, 2, 3, 4, 5, 6, 7, 8, 9, 10, 11, 12, 13, 14, 15],
    se := [16, 17, 18, 19, 20, 21, 22, 23, 24, 25, 26, 27, 28, 29, 30, 31],
    wiv := [1, 2, 3, 4, 5, 6, 7, 8, 9, 10, 11, 12],
    piv := [13, 14, 15, 16, 17, 18, 19, 20, 21, 22, 23, 24],
    dekRaw := [40, 41, 42, 43, 44, 45, 46, 47, 48, 49, 50, 51, 52, 53, 54, 55,
      56, 57, 58, 59, 60, 61, 62, 63, 64, 65, 66, 67, 68, 69, 70, 71] }

def r1 : Rand :=
  { sp := [100, 101, 102, 103, 104, 105, 106, 107, 108, 109, 110, 111, 112, 113, 114, 115],
    se := [116, 117, 118, 119, 120, 121, 122, 123, 124, 125, 126, 127, 128, 129, 130, 131],
    wiv := [50, 51, 52, 53, 54, 55, 56, 57, 58, 59, 60, 61],
    piv := [62, 63, 64, 65, 66, 67, 68, 69, 70, 71, 72, 73],
    dekRaw := [200, 201, 202, 203, 204, 205, 206, 207, 208, 209, 210, 211, 212, 213, 214, 215,
      216, 217, 218, 219, 220, 221, 222, 223, 224, 225, 226, 227, 228, 229, 230, 231] }

/-! ## Claim theorems. -/

/-- C4 counterexample: the 4-byte input "DYAD" is a truncated header (so
the claim requires a FormatError), yet `parseMetadata` fails with the
unclassified `RangeError` of `getUint32(4)` on a 4-byte `DataView`. -/
theorem claim4_counterexample :
    parseMetadata [68, 89, 65, 68] = .error errRange ∧ errRange.kind ≠ ErrKind.format := by
  constructor
  · rfl
  · decide

/-- C4 (amended): `parse` fails with a FormatError on every buffer whose
first four bytes are not the ASCII magic "DYAD" (including all such
buffers shorter than 8 bytes), and on every buffer with correct magic and
at least 8 bytes whose metadata JSON fails to parse (truncated or
malformed); a truncated header of 4–7 bytes that begins with the magic
instead fails with the unclassified RangeError of the DataView length
read. -/
theorem claim4_format_rejection (buf : List Nat) :
    (buf.take 4 ≠ MAGIC_HEADER → parseMetadata buf = .error errMagic) ∧
    (buf.take 4 = MAGIC_HEADER → buf.length < 8 → parseMetadata buf = .error errRange) ∧
    (buf.take 4 = MAGIC_HEADER → 8 ≤ buf.length →
      jsonParse (String.mk (utf8DecodeBOM
        ((buf.drop 8).take (readLe32 ((buf.take 8).drop 4))))) = none →
      parseMetadata buf = .error errJson) ∧
    errMagic.kind = ErrKind.format ∧ errJson.kind = ErrKind.format := by
  refine ⟨?_, ?_, ?_, rfl, rfl⟩
  · intro h
    rw [parseMetadata, if_pos h]
  · intro hm hlt
    rw [parseMetadata, if_neg (by simp [hm]), if_pos (by simp [List.length_take]; omega)]
  · intro hm hge hjson
    rw [parseMetadata, if_neg (by simp [hm]),
      if_neg (by simp [List.length_take]; omega)]
    dsimp only
    rw [hjson]

/-- C4 witness: the three amended branches at concrete inputs. -/
theorem claim4_format_rejection_witness :
    parseMetadata [0, 1, 2] = .error errMagic ∧
    parseMetadata [68, 89, 65, 68, 0] = .error errRange ∧
    parseMetadata [68, 89, 65, 68, 0, 0, 0, 0] = .error errJson :=
  ⟨(claim4_format_rejection [0, 1, 2]).1 (by decide),
    (claim4_format_rejection [68, 89, 65, 68, 0]).2.1 (by decide) (by decide),
    (claim4_format_rejection [68, 89, 65, 68, 0, 0, 0, 0]).2.2.1 (by decide) (by decide)
      (by rfl)⟩

/-- C6: `deriveMasterKey` concatenates the raw password key before the raw
email key as IKM, derives 256 bits via HKDF-SHA-256 with an empty
extraction salt and the fixed context string
"Dyad File Encryption Master Key", and the resulting master key is not
extractable. -/
theorem claim6_master_key (P : Provider) (kp ke : CKey)
    (hkp : kp.extractable = true) (hke : ke.extractable = true) :
    deriveMasterKey P kp ke = .ok
      { raw := P.hkdf "SHA-256" [] (kp.raw ++ ke.raw) (utf8Encode HKDF_INFO.data) 256,
        extractable := false } ∧
    HKDF_INFO = "Dyad File Encryption Master Key" ∧ AES_KEY_LENGTH = 256 := by
  refine ⟨?_, rfl, rfl⟩
  rw [deriveMasterKey, exportKey, if_pos hkp, exportKey, if_pos hke]
  rfl

/-- C6 witness. -/
theorem claim6_master_key_witness :
    deriveMasterKey toyProvider ⟨[1], true⟩ ⟨[2], true⟩ = .ok
      { raw := toyProvider.hkdf "SHA-256" [] ([1] ++ [2]) (utf8Encode HKDF_INFO.data) 256,
        extractable := false } ∧
    HKDF_INFO = "Dyad File Encryption Master Key" ∧ AES_KEY_LENGTH = 256 :=
  claim6_master_key toyProvider ⟨[1], true⟩ ⟨[2], true⟩ rfl rfl

/-- C8: `decryptFileStream` rejects every input shorter than 28 bytes with
the integrity error "Encrypted data too short." — for any provider and any
key, so before any decryption can be attempted — and on 28 bytes or more
takes the first 12 bytes as IV, authenticated-decrypts the rest, and maps
tag failure to the integrity error. -/
theorem claim8_min_length (P : Provider) (dek : CKey) (bytes : List Nat) :
    (bytes.length < 28 → decryptFileStream P bytes dek = .error errShort) ∧
    (28 ≤ bytes.length → decryptFileStream P bytes dek =
      match P.gcmDec dek.raw (bytes.take 12) (bytes.drop 12) with
      | some m => .ok m
      | none => .error errPayload) ∧
    errShort.kind = ErrKind.integrity ∧ errPayload.kind = ErrKind.integrity := by
  refine ⟨?_, ?_, rfl, rfl⟩
  · intro h
    rw [decryptFileStream, if_pos (by simp [AES_IV_LENGTH, AES_TAG_LENGTH]; omega)]
  · intro h
    rw [decryptFileStream, if_neg (by simp [AES_IV_LENGTH, AES_TAG_LENGTH]; omega)]
    rfl

/-- C8 witness: a 27-byte payload is rejected up front; a 28-byte payload
reaches the authenticated decryption. -/
theorem claim8_min_length_witness :
    decryptFileStream toyProvider (List.replicate 27 0) ⟨r0.dekRaw, true⟩ = .error errShort ∧
    decryptFileStream toyProvider (List.replicate 28 0) ⟨r0.dekRaw, true⟩ =
      match toyProvider.gcmDec r0.dekRaw ((List.replicate 28 0).take 12)
        ((List.replicate 28 0).drop 12) with
      | some m => .ok m
      | none => .error errPayload :=
  ⟨(claim8_min_length toyProvider ⟨r0.dekRaw, true⟩ (List.replicate 27 0)).1 (by decide),
    (claim8_min_length toyProvider ⟨r0.dekRaw, true⟩ (List.replicate 28 0)).2.1 (by decide)⟩

/-- C10: parsing a stream that begins with `packageMetadata(fileName, sp,
se, wiv, wdek)` succeeds for every fileName, 16-byte salts, 12-byte IV and
arbitrary wrapped-key bytes (parse imposes no length check on wdek),
returning exactly the packed fields with `headerLength = 8 + N` where `N`
is the metadata JSON byte length. -/
theorem claim10_pack_parse_roundtrip (fn : String) (sp se wiv wdek payload : List Nat)
    (hsp : sp.length = 16) (hspB : ∀ x ∈ sp, x < 256)
    (hse : se.length = 16) (hseB : ∀ x ∈ se, x < 256)
    (hwiv : wiv.length = 12) (hwivB : ∀ x ∈ wiv, x < 256)
    (hwdekB : ∀ x ∈ wdek, x < 256)
    (hlen : (metadataBytes fn sp se wiv wdek).length < 4294967296) :
    parseMetadata (packageMetadata fn sp se wiv wdek ++ payload) =
      .ok ⟨fn, sp, se, wiv, wdek, 8 + (metadataBytes fn sp se wiv wdek).length⟩ :=
  parseMetadata_packageMetadata fn sp se wiv wdek payload hsp hspB hse hseB hwiv hwivB hwdekB hlen

set_option maxRecDepth 16384 in
/-- C10 witness: a 3-byte wrapped key is accepted unchanged. -/
theorem claim10_pack_parse_roundtrip_witness :
    parseMetadata (packageMetadata "a.txt" r0.sp r0.se r0.wiv [1, 2, 3] ++ [9, 9]) =
      .ok ⟨"a.txt", r0.sp, r0.se, r0.wiv, [1, 2, 3],
        8 + (metadataBytes "a.txt" r0.sp r0.se r0.wiv [1, 2, 3]).length⟩ :=
  claim10_pack_parse_roundtrip "a.txt" r0.sp r0.se r0.wiv [1, 2, 3] [9, 9] (by decide) (by decide)
    (by decide) (by decide) (by decide) (by decide) (by decide) (by decide)

/-! ## Behaviour of `decryptFile` at the unwrap gate (helpers shared by
several claims). -/

theorem decryptFile_unwrap_fail (P : Provider) (fn pw em : String)
    (sp se wiv wdek payload : List Nat)
    (hsp : sp.length = 16) (hspB : ∀ x ∈ sp, x < 256)
    (hse : se.length = 16) (hseB : ∀ x ∈ se, x < 256)
    (hwiv : wiv.length = 12) (hwivB : ∀ x ∈ wiv, x < 256)
    (hwdekB : ∀ x ∈ wdek, x < 256)
    (hlen : (metadataBytes fn sp se wiv wdek).length < 4294967296)
    (hfail : P.gcmDec (masterRawOf P sp se pw em) wiv wdek = none) :
    decryptFile P (packageMetadata fn sp se wiv wdek ++ payload) pw em = .error errAuth := by
  have hparse := parseMetadata_packageMetadata fn sp se wiv wdek payload hsp hspB hse hseB
    hwiv hwivB hwdekB hlen
  rw [decryptFile, hparse]
  simp only [Bind.bind, Except.bind]
  simp only [deriveKeyPBKDF2, deriveMasterKey, exportKey, generateDataEncryptionKey,
    eq_self_iff_true, if_true, Bind.bind, Except.bind]
  simp only [unwrapDataKey]
  simp only [masterRawOf, stretchedOf, deriveKeyPBKDF2] at hfail
  rw [hfail]

theorem decryptFile_unwrap_ok (P : Provider) (fn pw em : String)
    (sp se wiv wdek payload dekRaw : List Nat)
    (hsp : sp.length = 16) (hspB : ∀ x ∈ sp, x < 256)
    (hse : se.length = 16) (hseB : ∀ x ∈ se, x < 256)
    (hwiv : wiv.length = 12) (hwivB : ∀ x ∈ wiv, x < 256)
    (hwdekB : ∀ x ∈ wdek, x < 256)
    (hlen : (metadataBytes fn sp se wiv wdek).length < 4294967296)
    (hok : P.gcmDec (masterRawOf P sp se pw em) wiv wdek = some dekRaw)
    (hdl : dekRaw.length = 32) :
    decryptFile P (packageMetadata fn sp se wiv wdek ++ payload) pw em =
      decryptFileStream P payload ⟨dekRaw, true⟩ := by
  have hparse := parseMetadata_packageMetadata fn sp se wiv wdek payload hsp hspB hse hseB
    hwiv hwivB hwdekB hlen
  have hdrop : (packageMetadata fn sp se wiv wdek ++ payload).drop
      (8 + (metadataBytes fn sp se wiv wdek).length) = payload :=
    List.drop_left' (packageMetadata_length fn sp se wiv wdek)
  rw [decryptFile, hparse]
  simp only [Bind.bind, Except.bind]
  rw [hdrop]
  simp only [deriveKeyPBKDF2, deriveMasterKey, exportKey, generateDataEncryptionKey,
    eq_self_iff_true, if_true, Bind.bind, Except.bind]
  simp only [unwrapDataKey]
  simp only [masterRawOf, stretchedOf, deriveKeyPBKDF2] at hok
  rw [hok]
  simp only [importAesKey]
  rw [if_pos (Or.inr (Or.inr hdl))]

/-- C1: for every file byte sequence F, password of length at least 7 and
email, decrypting the envelope produced by `encryptFile` with the same
password and email returns exactly F (PBKDF2-stretch both secrets with the
stored salts, HKDF-combine, unwrap the DEK, AES-GCM-decrypt the
payload). -/
theorem claim1_roundtrip (P : Provider) (r : Rand) (F : List Nat) (fn pw em : String)
    (hwf : RandWF r) (hpw : 7 ≤ pw.length)
    (hlen : (metadataBytes fn r.sp r.se r.wiv (wrappedOf P r pw em)).length < 4294967296) :
    ∃ env, encryptFile P r F fn pw em = .ok env ∧ decryptFile P env pw em = .ok F :=
  ⟨envelopeOf P r F fn pw em, encryptFile_eq P r F fn pw em,
    decryptFile_envelopeOf P r F fn pw em hwf hlen⟩

set_option maxRecDepth 65536 in
/-- C1 witness at concrete inputs. -/
theorem claim1_roundtrip_witness :
    ∃ env, encryptFile toyProvider r0 [104, 105] "f.txt" "hunter2!" "a@b.com" = .ok env ∧
      decryptFile toyProvider env "hunter2!" "a@b.com" = .ok [104, 105] :=
  claim1_roundtrip toyProvider r0 [104, 105] "f.txt" "hunter2!" "a@b.com" (by decide)
    (by decide) (by decide)

/-- C2: with a wrong password, wrong email, or both — whenever the AEAD
tag check rejects the wrapped key under the mismatched master key —
`decryptFile` fails with exactly the one AuthenticationError, and a
corruption of the wrapped-key field that fails its tag check produces the
very same error value: no factor-isolation oracle. -/
theorem claim2_wrong_secret_auth (P : Provider) (r : Rand) (F : List Nat)
    (fn pw em pw2 em2 : String) (hwf : RandWF r)
    (hlen : (metadataBytes fn r.sp r.se r.wiv (wrappedOf P r pw em)).length < 4294967296) :
    (P.gcmDec (masterRawOf P r.sp r.se pw2 em2) r.wiv (wrappedOf P r pw em) = none →
      decryptFile P (envelopeOf P r F fn pw em) pw2 em2 = .error errAuth) ∧
    (∀ wdek2 : List Nat, (∀ x ∈ wdek2, x < 256) →
      (metadataBytes fn r.sp r.se r.wiv wdek2).length < 4294967296 →
      P.gcmDec (masterRawOf P r.sp r.se pw em) r.wiv wdek2 = none →
      decryptFile P (packageMetadata fn r.sp r.se r.wiv wdek2 ++
        (r.piv ++ P.gcmEnc r.dekRaw r.piv F)) pw em = .error errAuth) ∧
    errAuth.kind = ErrKind.auth := by
  obtain ⟨hsp, hspB, hse, hseB, hwiv, hwivB, hpiv, hpivB, hdek, hdekB⟩ := hwf
  have hwdekB : ∀ x ∈ wrappedOf P r pw em, x < 256 := P.gcm_bytes _ _ _ hwivB hdekB
  refine ⟨?_, ?_, rfl⟩
  · intro hfail
    exact decryptFile_unwrap_fail P fn pw2 em2 r.sp r.se r.wiv (wrappedOf P r pw em)
      (r.piv ++ P.gcmEnc r.dekRaw r.piv F) hsp hspB hse hseB hwiv hwivB hwdekB hlen hfail
  · intro wdek2 hb hl hfail
    exact decryptFile_unwrap_fail P fn pw em r.sp r.se r.wiv wdek2
      (r.piv ++ P.gcmEnc r.dekRaw r.piv F) hsp hspB hse hseB hwiv hwivB hb hl hfail

def c2BadWdek : List Nat := List.replicate 16 0

set_option maxRecDepth 65536 in
/-- C2 witness: a wrong email and a corrupted wrapped-key field produce
the same AuthenticationError. -/
theorem claim2_wrong_secret_auth_witness :
    decryptFile toyProvider (envelopeOf toyProvider r0 [104] "f" "hunter2!" "a@b.com")
      "hunter2!" "x@y.com" = .error errAuth ∧
    decryptFile toyProvider (packageMetadata "f" r0.sp r0.se r0.wiv c2BadWdek ++
      (r0.piv ++ toyProvider.gcmEnc r0.dekRaw r0.piv [104])) "hunter2!" "a@b.com" =
      .error errAuth :=
  ⟨(claim2_wrong_secret_auth toyProvider r0 [104] "f" "hunter2!" "a@b.com" "hunter2!" "x@y.com"
      (by decide) (by decide)).1 (by decide),
    (claim2_wrong_secret_auth toyProvider r0 [104] "f" "hunter2!" "a@b.com" "hunter2!" "a@b.com"
      (by decide) (by decide)).2.1 c2BadWdek (by decide) (by decide) (by decide)⟩

/-- C3: every envelope is MAGIC "DYAD" (bytes 0–3), the little-endian
uint32 byte length N of the UTF-8 metadata JSON (bytes 4–7), the metadata
JSON itself (bytes 8..8+N, the object {fileName, sp, se, wiv, wdek} with
base64 fields — see `metadataJson`), and the payload
IV(12) ‖ ciphertext ‖ tag(16). -/
theorem claim3_envelope_layout (P : Provider) (r : Rand) (F : List Nat) (fn pw em : String)
    (hwf : RandWF r)
    (hlen : (metadataBytes fn r.sp r.se r.wiv (wrappedOf P r pw em)).length < 4294967296) :
    ∃ env, encryptFile P r F fn pw em = .ok env ∧
      env.take 4 = [68, 89, 65, 68] ∧
      (env.drop 4).take 4 =
        le32 (metadataBytes fn r.sp r.se r.wiv (wrappedOf P r pw em)).length ∧
      (env.drop 8).take (metadataBytes fn r.sp r.se r.wiv (wrappedOf P r pw em)).length =
        utf8Encode (metadataJson fn r.sp r.se r.wiv (wrappedOf P r pw em)).data ∧
      env.drop (8 + (metadataBytes fn r.sp r.se r.wiv (wrappedOf P r pw em)).length) =
        r.piv ++ P.gcmEnc r.dekRaw r.piv F ∧
      r.piv.length = 12 ∧
      (P.gcmEnc r.dekRaw r.piv F).length = F.length + 16 := by
  obtain ⟨hsp, hspB, hse, hseB, hwiv, hwivB, hpiv, hpivB, hdek, hdekB⟩ := hwf
  refine ⟨envelopeOf P r F fn pw em, encryptFile_eq P r F fn pw em, ?_, ?_, ?_, ?_, hpiv,
    P.gcm_len r.dekRaw r.piv F⟩
  · have h : envelopeOf P r F fn pw em = MAGIC_HEADER ++
        (le32 (metadataBytes fn r.sp r.se r.wiv (wrappedOf P r pw em)).length ++
          (metadataBytes fn r.sp r.se r.wiv (wrappedOf P r pw em) ++
            (r.piv ++ P.gcmEnc r.dekRaw r.piv F))) := by
      simp [envelopeOf, packageMetadata, List.append_assoc]
    rw [h]
    exact List.take_left' rfl
  · have h : envelopeOf P r F fn pw em = MAGIC_HEADER ++
        (le32 (metadataBytes fn r.sp r.se r.wiv (wrappedOf P r pw em)).length ++
          (metadataBytes fn r.sp r.se r.wiv (wrappedOf P r pw em) ++
            (r.piv ++ P.gcmEnc r.dekRaw r.piv F))) := by
      simp [envelopeOf, packageMetadata, List.append_assoc]
    rw [h, List.drop_left' (show (MAGIC_HEADER : List Nat).length = 4 from rfl)]
    exact List.take_left' (le32_length _)
  · have h : envelopeOf P r F fn pw em =
        (MAGIC_HEADER ++ le32 (metadataBytes fn r.sp r.se r.wiv (wrappedOf P r pw em)).length) ++
          (metadataBytes fn r.sp r.se r.wiv (wrappedOf P r pw em) ++
            (r.piv ++ P.gcmEnc r.dekRaw r.piv F)) := by
      simp [envelopeOf, packageMetadata, List.append_assoc]
    rw [h, List.drop_left' (by simp [MAGIC_HEADER, le32])]
    exact List.take_left' rfl
  · rw [envelopeOf]
    exact List.drop_left' (packageMetadata_length fn r.sp r.se r.wiv (wrappedOf P r pw em))

set_option maxRecDepth 65536 in
/-- C3 witness. -/
theorem claim3_envelope_layout_witness :
    ∃ env, encryptFile toyProvider r0 [1, 2, 3] "f.txt" "hunter2!" "a@b.com" = .ok env ∧
      env.take 4 = [68, 89, 65, 68] ∧
      (env.drop 4).take 4 = le32 (metadataBytes "f.txt" r0.sp r0.se r0.wiv
        (wrappedOf toyProvider r0 "hunter2!" "a@b.com")).length ∧
      (env.drop 8).take (metadataBytes "f.txt" r0.sp r0.se r0.wiv
        (wrappedOf toyProvider r0 "hunter2!" "a@b.com")).length =
        utf8Encode (metadataJson "f.txt" r0.sp r0.se r0.wiv
          (wrappedOf toyProvider r0 "hunter2!" "a@b.com")).data ∧
      env.drop (8 + (metadataBytes "f.txt" r0.sp r0.se r0.wiv
        (wrappedOf toyProvider r0 "hunter2!" "a@b.com")).length) =
        r0.piv ++ toyProvider.gcmEnc r0.dekRaw r0.piv [1, 2, 3] ∧
      r0.piv.length = 12 ∧
      (toyProvider.gcmEnc r0.dekRaw r0.piv [1, 2, 3]).length = [1, 2, 3].length + 16 :=
  claim3_envelope_layout toyProvider r0 [1, 2, 3] "f.txt" "hunter2!" "a@b.com" (by decide)
    (by decide)

/-- C7: two encryption runs whose random draws differ componentwise never
share a password salt, email salt, wrapping IV, payload IV or wrapped-DEK
bytes — the parsed headers of the two envelopes disagree in every one of
those fields, and the two payload IVs differ. -/
theorem claim7_freshness (P : Provider) (r1 r2 : Rand) (F : List Nat) (fn pw em : String)
    (hwf1 : RandWF r1) (hwf2 : RandWF r2)
    (hsp : r1.sp ≠ r2.sp) (hse : r1.se ≠ r2.se) (hwiv : r1.wiv ≠ r2.wiv)
    (hpiv : r1.piv ≠ r2.piv) (hdek : r1.dekRaw ≠ r2.dekRaw)
    (hlen1 : (metadataBytes fn r1.sp r1.se r1.wiv (wrappedOf P r1 pw em)).length < 4294967296)
    (hlen2 : (metadataBytes fn r2.sp r2.se r2.wiv (wrappedOf P r2 pw em)).length < 4294967296) :
    ∃ env1 env2 m1 m2,
      encryptFile P r1 F fn pw em = .ok env1 ∧ encryptFile P r2 F fn pw em = .ok env2 ∧
      parseMetadata env1 = .ok m1 ∧ parseMetadata env2 = .ok m2 ∧
      m1.sp ≠ m2.sp ∧ m1.se ≠ m2.se ∧ m1.wiv ≠ m2.wiv ∧ m1.wdek ≠ m2.wdek ∧
      (env1.drop m1.headerLength).take 12 ≠ (env2.drop m2.headerLength).take 12 := by
  obtain ⟨hsp1, hspB1, hse1, hseB1, hwiv1, hwivB1, hpiv1, hpivB1, hdek1, hdekB1⟩ := hwf1
  obtain ⟨hsp2, hspB2, hse2, hseB2, hwiv2, hwivB2, hpiv2, hpivB2, hdek2, hdekB2⟩ := hwf2
  have hwdekB1 : ∀ x ∈ wrappedOf P r1 pw em, x < 256 := P.gcm_bytes _ _ _ hwivB1 hdekB1
  have hwdekB2 : ∀ x ∈ wrappedOf P r2 pw em, x < 256 := P.gcm_bytes _ _ _ hwivB2 hdekB2
  have hparse1 := parseMetadata_packageMetadata fn r1.sp r1.se r1.wiv (wrappedOf P r1 pw em)
    (r1.piv ++ P.gcmEnc r1.dekRaw r1.piv F) hsp1 hspB1 hse1 hseB1 hwiv1 hwivB1 hwdekB1 hlen1
  have hparse2 := parseMetadata_packageMetadata fn r2.sp r2.se r2.wiv (wrappedOf P r2 pw em)
    (r2.piv ++ P.gcmEnc r2.dekRaw r2.piv F) hsp2 hspB2 hse2 hseB2 hwiv2 hwivB2 hwdekB2 hlen2
  have hdrop1 : (envelopeOf P r1 F fn pw em).drop
      (8 + (metadataBytes fn r1.sp r1.se r1.wiv (wrappedOf P r1 pw em)).length) =
      r1.piv ++ P.gcmEnc r1.dekRaw r1.piv F := by
    rw [envelopeOf]
    exact List.drop_left' (packageMetadata_length fn r1.sp r1.se r1.wiv (wrappedOf P r1 pw em))
  have hdrop2 : (envelopeOf P r2 F fn pw em).drop
      (8 + (metadataBytes fn r2.sp r2.se r2.wiv (wrappedOf P r2 pw em)).length) =
      r2.piv ++ P.gcmEnc r2.dekRaw r2.piv F := by
    rw [envelopeOf]
    exact List.drop_left' (packageMetadata_length fn r2.sp r2.se r2.wiv (wrappedOf P r2 pw em))
  refine ⟨envelopeOf P r1 F fn pw em, envelopeOf P r2 F fn pw em, _, _,
    encryptFile_eq P r1 F fn pw em, encryptFile_eq P r2 F fn pw em,
    (by rw [envelopeOf]; exact hparse1), (by rw [envelopeOf]; exact hparse2),
    hsp, hse, hwiv, ?_, ?_⟩
  · intro heq
    exact hwiv ((P.gcm_inj _ _ _ _ _ _ hwiv1 hwiv2 heq).1)
  · rw [hdrop1, hdrop2, List.take_left' hpiv1, List.take_left' hpiv2]
    exact hpiv

set_option maxRecDepth 65536 in
/-- C7 witness: two runs with componentwise different draws. -/
theorem claim7_freshness_witness :
    ∃ env1 env2 m1 m2,
      encryptFile toyProvider r0 [7] "f" "hunter2!" "a@b.com" = .ok env1 ∧
      encryptFile toyProvider r1 [7] "f" "hunter2!" "a@b.com" = .ok env2 ∧
      parseMetadata env1 = .ok m1 ∧ parseMetadata env2 = .ok m2 ∧
      m1.sp ≠ m2.sp ∧ m1.se ≠ m2.se ∧ m1.wiv ≠ m2.wiv ∧ m1.wdek ≠ m2.wdek ∧
      (env1.drop m1.headerLength).take 12 ≠ (env2.drop m2.headerLength).take 12 :=
  claim7_freshness toyProvider r0 r1 [7] "f" "hunter2!" "a@b.com" (by decide) (by decide)
    (by decide) (by decide) (by decide) (by decide) (by decide) (by decide) (by decide)

/-- C9: the DEK unwrap is checked strictly before payload decryption: when
the unwrap tag check fails, `decryptFile` returns the authentication error
for EVERY payload (the payload bytes are never consulted), and when it
succeeds the payload is decrypted by `decryptFileStream` under the
unwrapped DEK, verified independently by the payload's own AEAD tag. -/
theorem claim9_unwrap_gates_payload (P : Provider) (fn pw em : String)
    (sp se wiv wdek payload1 payload2 : List Nat)
    (hsp : sp.length = 16) (hspB : ∀ x ∈ sp, x < 256)
    (hse : se.length = 16) (hseB : ∀ x ∈ se, x < 256)
    (hwiv : wiv.length = 12) (hwivB : ∀ x ∈ wiv, x < 256)
    (hwdekB : ∀ x ∈ wdek, x < 256)
    (hlen : (metadataBytes fn sp se wiv wdek).length < 4294967296) :
    (P.gcmDec (masterRawOf P sp se pw em) wiv wdek = none →
      decryptFile P (packageMetadata fn sp se wiv wdek ++ payload1) pw em = .error errAuth ∧
      decryptFile P (packageMetadata fn sp se wiv wdek ++ payload2) pw em = .error errAuth) ∧
    (∀ dekRaw : List Nat, P.gcmDec (masterRawOf P sp se pw em) wiv wdek = some dekRaw →
      dekRaw.length = 32 →
      decryptFile P (packageMetadata fn sp se wiv wdek ++ payload1) pw em =
        decryptFileStream P payload1 ⟨dekRaw, true⟩) := by
  constructor
  · intro hfail
    exact ⟨decryptFile_unwrap_fail P fn pw em sp se wiv wdek payload1 hsp hspB hse hseB hwiv
        hwivB hwdekB hlen hfail,
      decryptFile_unwrap_fail P fn pw em sp se wiv wdek payload2 hsp hspB hse hseB hwiv
        hwivB hwdekB hlen hfail⟩
  · intro dekRaw hok hdl
    exact decryptFile_unwrap_ok P fn pw em sp se wiv wdek payload1 dekRaw hsp hspB hse hseB
      hwiv hwivB hwdekB hlen hok hdl

set_option maxRecDepth 65536 in
/-- C9 witness: a failing unwrap yields the same authentication error for
two different payloads; a succeeding unwrap hands the payload to
`decryptFileStream`. -/
theorem claim9_unwrap_gates_payload_witness :
    (decryptFile toyProvider (packageMetadata "f" r0.sp r0.se r0.wiv c2BadWdek ++ [0])
        "hunter2!" "a@b.com" = .error errAuth ∧
      decryptFile toyProvider (packageMetadata "f" r0.sp r0.se r0.wiv c2BadWdek ++ [1, 1])
        "hunter2!" "a@b.com" = .error errAuth) ∧
    decryptFile toyProvider (packageMetadata "f" r0.sp r0.se r0.wiv
        (wrappedOf toyProvider r0 "hunter2!" "a@b.com") ++ [0]) "hunter2!" "a@b.com" =
      decryptFileStream toyProvider [0] ⟨r0.dekRaw, true⟩ :=
  ⟨(claim9_unwrap_gates_payload toyProvider "f" "hunter2!" "a@b.com" r0.sp r0.se r0.wiv
      c2BadWdek [0] [1, 1] (by decide) (by decide) (by decide) (by decide) (by decide)
      (by decide) (by decide) (by decide)).1 (by decide),
    (claim9_unwrap_gates_payload toyProvider "f" "hunter2!" "a@b.com" r0.sp r0.se r0.wiv
      (wrappedOf toyProvider r0 "hunter2!" "a@b.com") [0] [1, 1] (by decide) (by decide)
      (by decide) (by decide) (by decide) (by decide) (by decide) (by decide)).2
      r0.dekRaw (by decide) (by decide)⟩

/-! ## C5: an unclassified platform error escapes `decryptFile`. -/

/-- A syntactically valid envelope whose `sp` field is not valid base64:
correct magic, correct length field, well-formed JSON. -/
def c5Json : String :=
  printObj [("fileName", "a"), ("sp", "!!!!"),
    ("se", String.mk (b64encode (List.replicate 16 0))),
    ("wiv", String.mk (b64encode (List.replicate 12 0))), ("wdek", "")]

def c5BadEnvelope : List Nat :=
  MAGIC_HEADER ++ le32 (utf8Encode c5Json.data).length ++ utf8Encode c5Json.data

set_option maxRecDepth 65536 in
/-- C5: the code classifies JSON, length and tag failures, but an envelope
whose `sp` metadata field is not valid base64 surfaces the platform's
`InvalidCharacterError` from `atob` — which no `try` block in the source
intercepts — so an unclassified provider error reaches the caller,
contradicting the claim. -/
theorem claim5_unclassified_escape :
    decryptFile toyProvider c5BadEnvelope "hunter2!" "a@b.com" = .error errB64 ∧
    errB64.kind = ErrKind.unclassified ∧ errB64.kind ≠ ErrKind.format ∧
    errB64.kind ≠ ErrKind.integrity ∧ errB64.kind ≠ ErrKind.auth := by
  refine ⟨by rfl, rfl, by decide, by decide, by decide⟩

end Dyad
